import Mathlib

/-!
Verification of the pgsqlconsts schema-to-code generator (src/main.go).

The development shallowly embeds the program's data model and operations:

* `toTitle`, `goTitleCase` — the identifier caser (`goTitleCase`, main.go:164-188),
  with `unicode.ToTitle` (external Go stdlib) modelled by a finite table
  restricted to ASCII and Latin-1 letters.
* `Node`, `toString` — the type-name renderer (`toString`, main.go:190-204);
  the `log.Printf` side effects are returned as an explicit log list.
* `Stmt`, `collectCreateTables`, `extractTables`, `buildTable` — the schema
  extractor (main.go:73-121), with the Go `append` loops translated as
  accumulator recursions.
* `renderGencodeTmpl` — the rendering of the built-in template `gencodeTmpl`
  (main.go:20-32) under Go text/template semantics.
* `formatSource`, `renderAndWrite` — the driver tail (main.go:138-161), with
  the external collaborators (text/template parse/execute, go/format.Source,
  os.Create) either universally quantified or modelled from the spec.
-/

namespace pgsqlconsts

/-- Models Go's `unicode.ToTitle` (external stdlib collaborator), restricted to
ASCII and Latin-1 letters: each lower-case letter in the table maps to its
title-case form; every other character is unchanged. -/
def titleMap : List (Char × Char) :=
  [('a','A'), ('b','B'), ('c','C'), ('d','D'), ('e','E'), ('f','F'), ('g','G'),
   ('h','H'), ('i','I'), ('j','J'), ('k','K'), ('l','L'), ('m','M'), ('n','N'),
   ('o','O'), ('p','P'), ('q','Q'), ('r','R'), ('s','S'), ('t','T'), ('u','U'),
   ('v','V'), ('w','W'), ('x','X'), ('y','Y'), ('z','Z'),
   ('à','À'), ('á','Á'), ('â','Â'), ('ã','Ã'), ('ä','Ä'), ('å','Å'), ('æ','Æ'),
   ('ç','Ç'), ('è','È'), ('é','É'), ('ê','Ê'), ('ë','Ë'), ('ì','Ì'), ('í','Í'),
   ('î','Î'), ('ï','Ï'), ('ð','Ð'), ('ñ','Ñ'), ('ò','Ò'), ('ó','Ó'), ('ô','Ô'),
   ('õ','Õ'), ('ö','Ö'), ('ø','Ø'), ('ù','Ù'), ('ú','Ú'), ('û','Û'), ('ü','Ü'),
   ('ý','Ý'), ('þ','Þ'), ('ÿ','Ÿ')]

/-- Title-casing of a single character, `unicode.ToTitle` in the Go source. -/
def toTitle (c : Char) : Char :=
  match titleMap.find? (fun p => p.1 == c) with
  | some p => p.2
  | none => c

/-- The loop of `goTitleCase` (main.go:172-185): `first` is `i == 0` (the rune
at byte offset 0), `tn` is `titlecaseNext`.  The character is title-cased when
at position 0 or flagged, then the switch runs on the (possibly re-cased)
character: a space sets the flag and is written, an underscore sets the flag
and is skipped (`continue`), anything else is written with the flag cleared. -/
def goTitleCaseLoop : Bool → Bool → List Char → List Char
  | _, _, [] => []
  | first, tn, c :: cs =>
    let c2 := if first || tn then toTitle c else c
    if c2 = ' ' then c2 :: goTitleCaseLoop false true cs
    else if c2 = '_' then goTitleCaseLoop false true cs
    else c2 :: goTitleCaseLoop false false cs

/-- `goTitleCase` (main.go:164-188): the literal input "id" maps to "ID";
otherwise the rune loop above runs over the string's characters. -/
def goTitleCase (s : String) : String :=
  if s = "id" then "ID" else ⟨goTitleCaseLoop true false s.data⟩

/-- Spec-side counterpart of the caser, written from the spec's words
(§4.1 / §8): the first character, and every character immediately following a
space or an underscore in the input, is title-cased; then all underscores are
removed (spaces survive).  `upAfterSepTail p cs` carries the previous input
character `p`. -/
def upAfterSepTail : Char → List Char → List Char
  | _, [] => []
  | p, c :: cs => (if p = ' ' ∨ p = '_' then toTitle c else c) :: upAfterSepTail c cs

/-- Title-case the first character and every character following a space or an
underscore of the input (spec wording, before underscore removal). -/
def upAfterSep : List Char → List Char
  | [] => []
  | c :: cs => toTitle c :: upAfterSepTail c cs

/-- `caseName` as the spec words it for inputs other than "id": case the first
character and each character after a space/underscore, then drop underscores. -/
def caseNameSpec (s : String) : String :=
  ⟨(upAfterSep s.data).filter (fun c => c != '_')⟩

/-- An element of a compound type-name expression (`TypeName.Names.Items` in
pg_query): either a plain string-literal node (`nodes.String`, whose literal
text is `str`) or any other node kind, tagged with its type name so the
diagnostic message can mention it. -/
inductive Node where
  | strNode (str : String)
  | otherNode (kind : String)
deriving DecidableEq

/-- A pg_query `nodes.ColumnDef`: column name (`Colname`) and the compound
type-name parts (`TypeName.Names.Items`). -/
structure ColumnDef where
  colname : String
  typeName : List Node
deriving DecidableEq

/-- One element of a CREATE TABLE statement's element list (`TableElts.Items`):
a column definition, or any other element kind (e.g. a table-level
constraint). -/
inductive TableElt where
  | columnDef (cd : ColumnDef)
  | otherElt (kind : String)
deriving DecidableEq

/-- A pg_query `nodes.CreateStmt`: the relation name (`Relation.Relname`) and
the ordered element list. -/
structure CreateStmt where
  relname : String
  tableElts : List TableElt
deriving DecidableEq

/-- The statement carried inside a `nodes.RawStmt` wrapper: the inner switch
at main.go:77-80 recognizes only `nodes.CreateStmt`. -/
inductive InnerStmt where
  | createStmt (s : CreateStmt)
  | otherInner (kind : String)
deriving DecidableEq

/-- A top-level parsed statement (main.go:74-85): a raw-statement wrapper, a
bare CREATE TABLE node, or any other statement kind. -/
inductive Stmt where
  | rawStmt (inner : InnerStmt)
  | createStmt (s : CreateStmt)
  | otherStmt (kind : String)
deriving DecidableEq

/-- Output record `Column` (main.go:38-41).  The Go field `Type` is a reserved
word in Lean, hence `Typ`. -/
structure Column where
  Name : String
  Typ : String
deriving DecidableEq

/-- Output record `Table` (main.go:34-37). -/
structure Table where
  Name : String
  Columns : List Column
deriving DecidableEq

/-- Template data `Data` (main.go:43-46). -/
structure Data where
  Package : String
  Tables : List Table
deriving DecidableEq

/-- The loop of `toString` (main.go:190-204): `buf` is the accumulated string
(`bytes.Buffer`), and the `log.Printf` side effects are collected in `logs`.
A `nodes.String` part is appended, preceded by a single space exactly when the
buffer is non-empty (`buf.Len() != 0`); any other node kind appends a
diagnostic to the log and contributes nothing to the value. -/
def toStringLoop : String → List String → List Node → String × List String
  | buf, logs, [] => (buf, logs)
  | buf, logs, .strNode str :: rest =>
    toStringLoop (if buf.length ≠ 0 then buf ++ " " ++ str else buf ++ str) logs rest
  | buf, logs, .otherNode kind :: rest =>
    toStringLoop buf (logs ++ ["unhandled node type: " ++ kind]) rest

/-- `toString` (main.go:190-204): first component is the returned string,
second the logged diagnostics. -/
def toString (nod : List Node) : String × List String := toStringLoop "" [] nod

/-- The CREATE TABLE collection loop (main.go:73-86): a `RawStmt` wrapping a
`CreateStmt` and a bare `CreateStmt` are appended to the accumulator; a
`RawStmt` wrapping anything else falls through the inner switch silently; any
other top-level statement kind hits the `default` arm and logs a diagnostic. -/
def collectLoop : List CreateStmt → List String → List Stmt → List CreateStmt × List String
  | acc, logs, [] => (acc, logs)
  | acc, logs, .rawStmt (.createStmt s) :: rest => collectLoop (acc ++ [s]) logs rest
  | acc, logs, .rawStmt (.otherInner _) :: rest => collectLoop acc logs rest
  | acc, logs, .createStmt s :: rest => collectLoop (acc ++ [s]) logs rest
  | acc, logs, .otherStmt kind :: rest =>
    collectLoop acc (logs ++ ["unexpected statement type " ++ kind]) rest

/-- The `createTables` slice and the diagnostics produced by the statement walk
(main.go:73-86). -/
def collectCreateTables (stmts : List Stmt) : List CreateStmt × List String :=
  collectLoop [] [] stmts

/-- The column-building loop (main.go:108-119): each `ColumnDef` element
appends a `Column` whose type string comes from `toString`; every other
element kind is skipped (`continue`). -/
def buildColumnsLoop : List Column → List TableElt → List Column
  | acc, [] => acc
  | acc, .columnDef cd :: rest =>
    buildColumnsLoop (acc ++ [{ Name := cd.colname, Typ := (toString cd.typeName).1 }]) rest
  | acc, .otherElt _ :: rest => buildColumnsLoop acc rest

/-- Construction of one `Table` record from a CREATE TABLE statement
(main.go:105-119). -/
def buildTable (s : CreateStmt) : Table :=
  { Name := s.relname, Columns := buildColumnsLoop [] s.tableElts }

/-- The table-building loop over collected CREATE TABLE statements
(main.go:99-121): a statement is skipped when the allowlist is non-empty and
its relation name is not a member (`len(tables) > 0 && !tables[tableName]`);
otherwise its `Table` is appended. -/
def extractTablesLoop (allow : List String) : List Table → List CreateStmt → List Table
  | acc, [] => acc
  | acc, s :: rest =>
    if allow.length ≠ 0 ∧ ¬ allow.contains s.relname then
      extractTablesLoop allow acc rest
    else
      extractTablesLoop allow (acc ++ [buildTable s]) rest

/-- Extraction of the `data.Tables` list (main.go:99-121). -/
def extractTables (cts : List CreateStmt) (allow : List String) : List Table :=
  extractTablesLoop allow [] cts

/-- Model of Go's `strings.Split(s, ",")` (external stdlib collaborator) on the
character list of `s`: the list of (possibly empty) segments between commas. -/
def splitComma : List Char → List (List Char)
  | [] => [[]]
  | c :: rest =>
    if c = ',' then [] :: splitComma rest
    else
      match splitComma rest with
      | [] => [[c]]
      | p :: ps => (c :: p) :: ps

/-- The allowlist built from the `-tables` flag value (main.go:88-93): empty
flag value yields the empty allowlist, otherwise the comma-separated segments
are inserted verbatim (no trimming).  The Go `map[string]bool` is modelled as
the segment list, membership by exact string equality. -/
def parseAllowlist (matchTables : String) : List String :=
  if matchTables = "" then [] else (splitComma matchTables.data).map String.mk

/-- Which statements the walk at main.go:74-85 recognizes as table creations
(bare `CreateStmt` or `RawStmt`-wrapped `CreateStmt`). -/
def createOf : Stmt → Option CreateStmt
  | .rawStmt (.createStmt s) => some s
  | .createStmt s => some s
  | _ => none

/-- The diagnostic, if any, that the walk at main.go:74-85 logs for one
statement (only the top-level `default` arm logs). -/
def stmtDiagOf : Stmt → Option String
  | .otherStmt kind => some ("unexpected statement type " ++ kind)
  | _ => none

/-- Number of table-creation statements in a statement sequence (bare or
raw-wrapped CREATE TABLE nodes). -/
def countCreateStmts (stmts : List Stmt) : Nat :=
  (stmts.filterMap createOf).length

/-- The `Column` an element contributes, if it is a column definition. -/
def columnOfElt : TableElt → Option Column
  | .columnDef cd => some { Name := cd.colname, Typ := (toString cd.typeName).1 }
  | .otherElt _ => none

/-- Whether a CREATE TABLE statement passes the allowlist filter: kept when
the allowlist is empty or contains its relation name. -/
def keepTable (allow : List String) (s : CreateStmt) : Bool :=
  allow.isEmpty || allow.contains s.relname

/-- The literal texts of the plain string-literal nodes, in encounter order. -/
def literalsOf (nod : List Node) : List String :=
  nod.filterMap fun n => match n with | .strNode s => some s | .otherNode _ => none

/-- The diagnostic, if any, `toString` logs for one node. -/
def nodeDiagOf : Node → Option String
  | .otherNode kind => some ("unhandled node type: " ++ kind)
  | .strNode _ => none

/-- Spec-side join (§4.2 wording): the parts joined with a single space
between consecutive parts, no leading or trailing separator added. -/
def joinSpaceSpec : List String → String
  | [] => ""
  | [s] => s
  | s :: rest => s ++ " " ++ joinSpaceSpec rest

/-- Plain concatenation of a list of strings. -/
def joinAll : List String → String
  | [] => ""
  | s :: rest => s ++ joinAll rest

/-- Rendering of one column's struct-field line by the built-in template
(main.go:27-29): the `- range`/`- end` trim markers consume the newline+tab
before the inner range and the newline before the inner end, leaving
"newline, tab, cased name, ` string // `, type" per column. -/
def gencodeTmplColumnField (c : Column) : String :=
  "\n\t" ++ goTitleCase c.Name ++ " string // " ++ c.Typ

/-- Rendering of one column's entry in the struct literal (main.go:30):
a quoted column name followed by a comma. -/
def gencodeTmplColumnValue (c : Column) : String :=
  "\"" ++ c.Name ++ "\","

/-- Rendering of one table's block by the built-in template (main.go:24-30)
under Go text/template semantics: comment line, `var` declaration with the
struct type (TableName plus one field per column), then the struct literal
with the table name and the quoted column names. -/
def gencodeTmplTable (t : Table) : String :=
  "\n// " ++ goTitleCase t.Name ++ " contains constants for the " ++ t.Name
    ++ " table\nvar " ++ goTitleCase t.Name ++ " = struct\x7b\n\tTableName string"
    ++ joinAll (t.Columns.map gencodeTmplColumnField)
    ++ "\n\x7d\x7b\"" ++ t.Name ++ "\","
    ++ joinAll (t.Columns.map gencodeTmplColumnValue)
    ++ " \x7d\n"

/-- Rendering of the whole built-in template `gencodeTmpl` (main.go:20-32)
over a `Data` value: the generated-code header comment, the package clause,
one blank line, each table's block in order (the `range` over `.Tables`
contributes nothing when the list is empty), and the final newline after the
outer `end`. -/
def renderGencodeTmpl (d : Data) : String :=
  "// Code generated by pgsqlconsts; DO NOT EDIT.\npackage " ++ d.Package
    ++ "\n\n" ++ joinAll (d.Tables.map gencodeTmplTable) ++ "\n"

/-- Brace-balance check over a character list; `d` is the current nesting
depth. -/
def bracesBalanced : List Char → Nat → Bool
  | [], d => d == 0
  | c :: cs, d =>
    if c = '\x7b' then bracesBalanced cs (d + 1)
    else if c = '\x7d' then
      match d with
      | 0 => false
      | d' + 1 => bracesBalanced cs d'
    else bracesBalanced cs d

/-- Modelled from the spec: `go/format.Source` is an external collaborator
(§4.5 Output Verifier) whose contract is to validate that the rendered text is
syntactically well-formed target-language source.  Well-formedness is
abstracted to a decidable check: balanced braces. -/
def goSyntaxOK (s : String) : Bool := bracesBalanced s.data 0

/-- Modelled from the spec: the canonicalization half of the §4.5 contract
("canonicalizes formatting/whitespace deterministically"), abstracted to
normalizing the text to end in exactly one newline (which the real formatter
guarantees), so that verifying already-canonical text is the identity. -/
def fmtNorm (s : String) : String :=
  ⟨(s.data.reverse.dropWhile (fun c => c == '\n')).reverse ++ ['\n']⟩

/-- Modelled from the spec: the Output Verifier (§4.5): canonicalized output
on success, an error (`MalformedOutputError`) on malformed input. -/
def formatSource (s : String) : Except String String :=
  if goSyntaxOK s then .ok (fmtNorm s) else .error "malformed output"

/-- The fatal-error exits of the driver tail (main.go:138-161), in source
order: template parse failure, template execution failure, formatter failure
("generated bad code"), output-file creation failure. -/
inductive Fatal where
  | templateParse (msg : String)
  | templateExec (msg : String)
  | badCode (msg : String)
  | createFile (path : String)
deriving DecidableEq

/-- Observable outcome of the driver tail: the raw text dumped to stderr (on
formatter failure), the text written to stdout, the file written (path and
contents), and the fatal error if any. -/
structure RunOutcome where
  stderrDump : Option String
  stdoutOut : Option String
  fileOut : Option (String × String)
  fatalErr : Option Fatal
deriving DecidableEq

/-- The driver tail (main.go:138-161) with its external collaborators as
parameters: `parseTmpl` (text/template `New().Funcs(fmap).Parse`) applied to
the template text yields an executor or a parse error; the executor
(`tmpl.Execute`) renders the data or fails; `fmtSrc` is the output formatter
(`format.Source`); `createOk` tells whether `os.Create` succeeds for a path.
The sequencing mirrors the source exactly: parse, execute, format (dumping the
raw rendered text to stderr before the fatal exit on failure), then write to
the output file when one is configured (`*outputFile != ""`), else to
stdout. -/
def renderAndWrite
    (parseTmpl : String → Except String (Data → Except String String))
    (fmtSrc : String → Except String String)
    (createOk : String → Bool)
    (templateText outputFile : String) (data : Data) : RunOutcome :=
  match parseTmpl templateText with
  | .error e => ⟨none, none, none, some (.templateParse e)⟩
  | .ok exec =>
    match exec data with
    | .error e => ⟨none, none, none, some (.templateExec e)⟩
    | .ok rendered =>
      match fmtSrc rendered with
      | .error e => ⟨some rendered, none, none, some (.badCode e)⟩
      | .ok formatted =>
        if outputFile ≠ "" then
          if createOk outputFile then ⟨none, none, some (outputFile, formatted), none⟩
          else ⟨none, none, none, some (.createFile outputFile)⟩
        else ⟨none, some formatted, none, none⟩

/-- CREATE TABLE users (id int4, email text), as parsed. -/
def usersStmt : CreateStmt :=
  ⟨"users", [.columnDef ⟨"id", [.strNode "int4"]⟩, .columnDef ⟨"email", [.strNode "text"]⟩]⟩

/-- CREATE TABLE posts (title text), as parsed. -/
def postsStmt : CreateStmt := ⟨"posts", [.columnDef ⟨"title", [.strNode "text"]⟩]⟩

/-- First of two CREATE TABLE statements sharing the relation name "t". -/
def dupStmtA : CreateStmt := ⟨"t", [.columnDef ⟨"a", [.strNode "int4"]⟩]⟩

/-- Second of two CREATE TABLE statements sharing the relation name "t". -/
def dupStmtB : CreateStmt := ⟨"t", []⟩

/-- The `Table` record of claim C5's round-trip data. -/
def usersTable : Table := ⟨"users", [⟨"id", "int4"⟩, ⟨"email", "text"⟩]⟩

/-- Whether `pat` occurs as a contiguous substring of the second list. -/
def hasSubstring (pat : List Char) : List Char → Bool
  | [] => pat.isEmpty
  | c :: rest => pat.isPrefixOf (c :: rest) || hasSubstring pat rest

set_option maxRecDepth 10000

lemma titleMap_no_sep : ∀ p ∈ titleMap, p.2 ≠ ' ' ∧ p.2 ≠ '_' := by decide

lemma toTitle_eq_space_iff (c : Char) : toTitle c = ' ' ↔ c = ' ' := by
  unfold toTitle
  constructor
  · intro h
    cases hf : titleMap.find? (fun p => p.1 == c) with
    | none => rw [hf] at h; exact h
    | some p =>
      rw [hf] at h
      exact absurd h (titleMap_no_sep p (List.mem_of_find?_eq_some hf)).1
  · intro h; subst h; decide

lemma toTitle_eq_us_iff (c : Char) : toTitle c = '_' ↔ c = '_' := by
  unfold toTitle
  constructor
  · intro h
    cases hf : titleMap.find? (fun p => p.1 == c) with
    | none => rw [hf] at h; exact h
    | some p =>
      rw [hf] at h
      exact absurd h (titleMap_no_sep p (List.mem_of_find?_eq_some hf)).2
  · intro h; subst h; decide

/-- Key loop invariant: once past the first character, the loop with
`titlecaseNext` set exactly when the previous input character was a space or an
underscore computes the spec-side transformation. -/
lemma goTitleCaseLoop_eq_spec (cs : List Char) :
    ∀ (b : Bool) (p : Char), (b = true ↔ (p = ' ' ∨ p = '_')) →
      goTitleCaseLoop false b cs
        = (upAfterSepTail p cs).filter (fun c => c != '_') := by
  induction cs with
  | nil => intro b p _; rfl
  | cons c cs ih =>
    intro b p hb
    simp only [goTitleCaseLoop, upAfterSepTail, Bool.false_or]
    cases b with
    | true =>
      have hp : p = ' ' ∨ p = '_' := hb.mp rfl
      rw [if_pos rfl, if_pos hp, List.filter_cons]
      by_cases hsp : toTitle c = ' '
      · have hc : c = ' ' := (toTitle_eq_space_iff c).mp hsp
        rw [if_pos hsp,
          if_pos (show (toTitle c != '_') = true by rw [hsp]; decide)]
        exact congrArg _ (ih true c (by simp [hc]))
      · by_cases hus : toTitle c = '_'
        · have hc : c = '_' := (toTitle_eq_us_iff c).mp hus
          rw [if_neg hsp, if_pos hus,
            if_neg (show ¬ (toTitle c != '_') = true by rw [hus]; decide)]
          exact ih true c (by simp [hc])
        · have hc : ¬(c = ' ' ∨ c = '_') := by
            rintro (h | h)
            · exact hsp ((toTitle_eq_space_iff c).mpr h)
            · exact hus ((toTitle_eq_us_iff c).mpr h)
          rw [if_neg hsp, if_neg hus,
            if_pos (show (toTitle c != '_') = true by simp [hus])]
          exact congrArg _ (ih false c (by simp [hc]))
    | false =>
      have hp : ¬(p = ' ' ∨ p = '_') := fun h => by
        have := hb.mpr h; exact Bool.false_ne_true this
      rw [if_neg (by decide : ¬ (false = true)), if_neg hp, List.filter_cons]
      by_cases hsp : c = ' '
      · rw [if_pos hsp, if_pos (show (c != '_') = true by rw [hsp]; decide)]
        exact congrArg _ (ih true c (by simp [hsp]))
      · by_cases hus : c = '_'
        · rw [if_neg hsp, if_pos hus,
            if_neg (show ¬ (c != '_') = true by rw [hus]; decide)]
          exact ih true c (by simp [hus])
        · rw [if_neg hsp, if_neg hus,
            if_pos (show (c != '_') = true by simp [hus])]
          exact congrArg _ (ih false c (by simp [hsp, hus]))

/-- The full loop (starting at the first character) computes the spec-side
transformation followed by underscore removal. -/
lemma goTitleCaseLoop_spec (l : List Char) :
    goTitleCaseLoop true false l = (upAfterSep l).filter (fun c => c != '_') := by
  cases l with
  | nil => rfl
  | cons c cs =>
    simp only [goTitleCaseLoop, upAfterSep, Bool.true_or]
    rw [if_pos trivial, List.filter_cons]
    by_cases hsp : toTitle c = ' '
    · have hc : c = ' ' := (toTitle_eq_space_iff c).mp hsp
      rw [if_pos hsp,
        if_pos (show (toTitle c != '_') = true by rw [hsp]; decide)]
      exact congrArg _ (goTitleCaseLoop_eq_spec cs true c (by simp [hc]))
    · by_cases hus : toTitle c = '_'
      · have hc : c = '_' := (toTitle_eq_us_iff c).mp hus
        rw [if_neg hsp, if_pos hus,
          if_neg (show ¬ (toTitle c != '_') = true by rw [hus]; decide)]
        exact goTitleCaseLoop_eq_spec cs true c (by simp [hc])
      · have hc : ¬(c = ' ' ∨ c = '_') := by
          rintro (h | h)
          · exact hsp ((toTitle_eq_space_iff c).mpr h)
          · exact hus ((toTitle_eq_us_iff c).mpr h)
        rw [if_neg hsp, if_neg hus,
          if_pos (show (toTitle c != '_') = true by simp [hus])]
        exact congrArg _
          (goTitleCaseLoop_eq_spec cs false c (by simpa using hc))

lemma data_empty : ("" : String).data = [] := rfl

lemma str_empty_append (s : String) : "" ++ s = s :=
  String.ext (by simp [String.data_append, data_empty])

lemma str_append_empty (s : String) : s ++ "" = s :=
  String.ext (by simp [String.data_append, data_empty])

lemma str_append_assoc (a b c : String) : a ++ b ++ c = a ++ (b ++ c) :=
  String.ext (by simp [String.data_append])

lemma str_length_ne_zero (s : String) (h : s ≠ "") : s.length ≠ 0 := by
  cases s with
  | mk l =>
    cases l with
    | nil => exact absurd rfl h
    | cons c cs => simp [String.length]

lemma str_append_ne_empty (a b : String) (h : a ≠ "") : a ++ b ≠ "" := by
  intro hab
  apply h
  have : (a ++ b).data = ("" : String).data := by rw [hab]
  rw [String.data_append, data_empty, List.append_eq_nil] at this
  cases a with
  | mk l => cases this.1; rfl

/-- Accumulator characterization of the statement walk: tables and diagnostics
are those of the statements, in order, appended to the accumulators. -/
lemma collectLoop_eq (stmts : List Stmt) : ∀ acc logs,
    collectLoop acc logs stmts
      = (acc ++ stmts.filterMap createOf, logs ++ stmts.filterMap stmtDiagOf) := by
  induction stmts with
  | nil => intro acc logs; simp [collectLoop]
  | cons n rest ih =>
    intro acc logs
    cases n with
    | rawStmt inner =>
      cases inner with
      | createStmt s => simp [collectLoop, createOf, stmtDiagOf, ih, List.filterMap_cons]
      | otherInner k => simp [collectLoop, createOf, stmtDiagOf, ih, List.filterMap_cons]
    | createStmt s => simp [collectLoop, createOf, stmtDiagOf, ih, List.filterMap_cons]
    | otherStmt k => simp [collectLoop, createOf, stmtDiagOf, ih, List.filterMap_cons]

/-- Accumulator characterization of the column-building loop. -/
lemma buildColumnsLoop_eq (elts : List TableElt) : ∀ acc,
    buildColumnsLoop acc elts = acc ++ elts.filterMap columnOfElt := by
  induction elts with
  | nil => intro acc; simp [buildColumnsLoop]
  | cons e rest ih =>
    intro acc
    cases e with
    | columnDef cd => simp [buildColumnsLoop, columnOfElt, ih, List.filterMap_cons]
    | otherElt k => simp [buildColumnsLoop, columnOfElt, ih, List.filterMap_cons]

lemma keepTable_false_iff (allow : List String) (s : CreateStmt) :
    keepTable allow s = false ↔ (allow.length ≠ 0 ∧ ¬ allow.contains s.relname) := by
  cases allow with
  | nil => simp [keepTable]
  | cons a rest => simp [keepTable]

/-- Accumulator characterization of the table-building loop: the result is the
order-preserving image of the allowlist-filtered statements. -/
lemma extractTablesLoop_eq (allow : List String) (cts : List CreateStmt) : ∀ acc,
    extractTablesLoop allow acc cts
      = acc ++ (cts.filter (keepTable allow)).map buildTable := by
  induction cts with
  | nil => intro acc; simp [extractTablesLoop]
  | cons s rest ih =>
    intro acc
    by_cases h : allow.length ≠ 0 ∧ ¬ allow.contains s.relname
    · have hk : keepTable allow s = false := (keepTable_false_iff allow s).mpr h
      simp only [extractTablesLoop]
      rw [if_pos h, ih, List.filter_cons, hk]
      simp
    · have hk : keepTable allow s = true := by
        cases hkb : keepTable allow s with
        | true => rfl
        | false => exact absurd ((keepTable_false_iff allow s).mp hkb) h
      simp only [extractTablesLoop]
      rw [if_neg h, ih, List.filter_cons, hk]
      simp

/-- The filtered/mapped form of `extractTables`. -/
lemma extractTables_eq (cts : List CreateStmt) (allow : List String) :
    extractTables cts allow = (cts.filter (keepTable allow)).map buildTable := by
  rw [extractTables, extractTablesLoop_eq]
  simp

/-- The logs of `toStringLoop` are the diagnostics of the other-kind nodes, in
order, appended to the incoming log. -/
lemma toStringLoop_logs (nod : List Node) : ∀ buf logs,
    (toStringLoop buf logs nod).2 = logs ++ nod.filterMap nodeDiagOf := by
  induction nod with
  | nil => intro buf logs; simp [toStringLoop]
  | cons n rest ih =>
    intro buf logs
    cases n with
    | strNode s => simp [toStringLoop, nodeDiagOf, ih, List.filterMap_cons]
    | otherNode k => simp [toStringLoop, nodeDiagOf, ih, List.filterMap_cons]

/-- Once the buffer is non-empty, every further recognized part is appended
with a single leading space. -/
lemma toStringLoop_val_nonempty (nod : List Node) : ∀ buf logs, buf ≠ "" →
    (toStringLoop buf logs nod).1
      = buf ++ joinAll ((literalsOf nod).map (fun s => " " ++ s)) := by
  induction nod with
  | nil => intro buf logs _; simp [toStringLoop, literalsOf, joinAll, str_append_empty]
  | cons n rest ih =>
    intro buf logs hbuf
    cases n with
    | strNode s =>
      have hlen : buf.length ≠ 0 := str_length_ne_zero buf hbuf
      have hbuf' : buf ++ " " ++ s ≠ "" :=
        str_append_ne_empty _ _ (str_append_ne_empty buf " " hbuf)
      simp only [toStringLoop, if_pos hlen]
      rw [ih _ logs hbuf']
      simp [literalsOf, List.filterMap_cons, joinAll, str_append_assoc]
    | otherNode k =>
      simp only [toStringLoop]
      rw [ih _ _ hbuf]
      simp [literalsOf, List.filterMap_cons]

lemma joinSpaceSpec_cons (s : String) (rest : List String) :
    joinSpaceSpec (s :: rest) = s ++ joinAll (rest.map (fun t => " " ++ t)) := by
  induction rest generalizing s with
  | nil => simp [joinSpaceSpec, joinAll, str_append_empty]
  | cons r rs ih =>
    rw [show joinSpaceSpec (s :: r :: rs) = s ++ " " ++ joinSpaceSpec (r :: rs) from rfl]
    rw [ih r]
    simp [joinAll, str_append_assoc]

/-- When every recognized part is non-empty, the loop started on an empty
buffer computes the spec-side single-space join of the parts. -/
lemma toStringLoop_val_of_nonempty (nod : List Node) : ∀ logs,
    (∀ s ∈ literalsOf nod, s ≠ "") →
    (toStringLoop "" logs nod).1 = joinSpaceSpec (literalsOf nod) := by
  induction nod with
  | nil => intro logs _; rfl
  | cons n rest ih =>
    intro logs h
    cases n with
    | strNode s =>
      have hs : s ≠ "" := h s (by simp [literalsOf, List.filterMap_cons])
      have hlen : ¬ ("" : String).length ≠ 0 := by simp
      simp only [toStringLoop, if_neg hlen]
      rw [str_empty_append, toStringLoop_val_nonempty rest s logs hs]
      rw [show literalsOf (Node.strNode s :: rest) = s :: literalsOf rest from by
        simp [literalsOf, List.filterMap_cons]]
      rw [joinSpaceSpec_cons]
    | otherNode k =>
      have h' : ∀ s ∈ literalsOf rest, s ≠ "" := by
        intro s hs
        exact h s (by simp [literalsOf, List.filterMap_cons] at hs ⊢; exact hs)
      rw [show literalsOf (Node.otherNode k :: rest) = literalsOf rest from by
        simp [literalsOf, List.filterMap_cons]]
      simp only [toStringLoop]
      exact ih _ h'

/-- When every recognized part is non-empty, `toString` computes the spec-side
single-space join of the parts. -/
lemma toString_val_of_nonempty (nod : List Node)
    (h : ∀ s ∈ literalsOf nod, s ≠ "") :
    (toString nod).1 = joinSpaceSpec (literalsOf nod) :=
  toStringLoop_val_of_nonempty nod [] h

lemma dropWhile_idem (p : Char → Bool) :
    ∀ l : List Char, List.dropWhile p (List.dropWhile p l) = List.dropWhile p l := by
  intro l
  induction l with
  | nil => rfl
  | cons a t ih =>
    by_cases h : p a = true
    · simp [List.dropWhile_cons, h, ih]
    · simp [List.dropWhile_cons, h]

lemma fmtNorm_idem (s : String) : fmtNorm (fmtNorm s) = fmtNorm s := by
  apply String.ext
  simp only [fmtNorm]
  simp [dropWhile_idem]

lemma bracesBalanced_append_nl :
    ∀ (l suf : List Char) (d : Nat), (∀ c ∈ suf, c = '\n') →
      bracesBalanced (l ++ suf) d = bracesBalanced l d := by
  intro l
  induction l with
  | nil =>
    intro suf d h
    induction suf with
    | nil => rfl
    | cons c cs ih2 =>
      have hc : c = '\n' := h c (List.mem_cons_self c cs)
      subst hc
      simp only [List.nil_append] at ih2 ⊢
      rw [show bracesBalanced ('\n' :: cs) d = bracesBalanced cs d from by
        simp [bracesBalanced]]
      exact ih2 (fun c hcm => h c (List.mem_cons_of_mem _ hcm))
  | cons c l ih =>
    intro suf d h
    by_cases h1 : c = '\x7b'
    · simp [bracesBalanced, h1, ih _ _ h]
    · by_cases h2 : c = '\x7d'
      · cases d with
        | zero => simp [bracesBalanced, h1, h2]
        | succ d' => simp [bracesBalanced, h1, h2, ih _ _ h]
      · simp [bracesBalanced, h1, h2, ih _ _ h]

lemma goSyntaxOK_fmtNorm (s : String) : goSyntaxOK (fmtNorm s) = goSyntaxOK s := by
  unfold goSyntaxOK fmtNorm
  have hl : s.data
      = (s.data.reverse.dropWhile (fun c => c == '\n')).reverse
        ++ (s.data.reverse.takeWhile (fun c => c == '\n')).reverse := by
    conv_lhs => rw [← List.reverse_reverse s.data,
      ← List.takeWhile_append_dropWhile (p := fun c => c == '\n') (l := s.data.reverse)]
    rw [List.reverse_append]
  rw [show (String.mk ((s.data.reverse.dropWhile (fun c => c == '\n')).reverse ++ ['\n'])).data
      = (s.data.reverse.dropWhile (fun c => c == '\n')).reverse ++ ['\n'] from rfl]
  rw [bracesBalanced_append_nl _ ['\n'] 0 (by intro c hc; simp at hc; exact hc)]
  conv_rhs => rw [hl]
  rw [bracesBalanced_append_nl _ _ 0 (by
    intro c hc
    rw [List.mem_reverse] at hc
    have := List.mem_takeWhile_imp hc
    simpa using this)]

/-- Verifying already-canonical text returns it unchanged: the §4.5 verifier is
idempotent. -/
lemma formatSource_idem (t u : String) (h : formatSource t = .ok u) :
    formatSource u = .ok u := by
  unfold formatSource at h ⊢
  by_cases hok : goSyntaxOK t = true
  · rw [if_pos hok] at h
    have hu : u = fmtNorm t := by
      cases h; rfl
    subst hu
    rw [if_pos (by rw [goSyntaxOK_fmtNorm]; exact hok)]
    rw [fmtNorm_idem]
  · rw [if_neg hok] at h
    cases h

lemma goTitleCaseLoop_sep (l : List Char) : (∀ c ∈ l, c = ' ' ∨ c = '_') →
    ∀ first tn : Bool, goTitleCaseLoop first tn l = l.filter (fun c => c != '_') := by
  induction l with
  | nil => intro _ first tn; rfl
  | cons c cs ih =>
    intro h first tn
    have htail := ih (fun x hx => h x (List.mem_cons_of_mem _ hx))
    rcases h c (List.mem_cons_self c cs) with hc | hc
    · subst hc
      have ht : toTitle ' ' = ' ' := by decide
      simp [goTitleCaseLoop, ht, List.filter_cons, htail false true]
    · subst hc
      have ht : toTitle '_' = '_' := by decide
      simp [goTitleCaseLoop, ht, List.filter_cons, htail false true]

lemma extractTables_of_ne_nil (cts : List CreateStmt) (allow : List String)
    (h : allow ≠ []) :
    extractTables cts allow
      = (cts.filter (fun s => allow.contains s.relname)).map buildTable := by
  rw [extractTables_eq]
  congr 1
  apply List.filter_congr
  intro s _
  cases allow with
  | nil => exact absurd rfl h
  | cons a rest => simp [keepTable]

lemma splitComma_cons (l : List Char) : ∃ p ps, splitComma l = p :: ps := by
  induction l with
  | nil => exact ⟨[], [], rfl⟩
  | cons c rest ih =>
    by_cases hc : c = ','
    · exact ⟨[], splitComma rest, by simp [splitComma, hc]⟩
    · obtain ⟨p, ps, hps⟩ := ih
      exact ⟨c :: p, ps, by simp [splitComma, hc, hps]⟩

lemma parseAllowlist_ne_nil (v : String) (hv : v ≠ "") : parseAllowlist v ≠ [] := by
  obtain ⟨p, ps, hps⟩ := splitComma_cons v.data
  simp [parseAllowlist, hv, hps]

/-- C1 (amended): for every input string `s ≠ "id"`, `goTitleCase` upper-cases
exactly the first character and every character immediately following a space
or an underscore, removes all underscores, and preserves spaces
(`caseNameSpec`); `goTitleCase "id" = "ID"`,
`goTitleCase "user_id" = "UserId"` (not `"UserID"`: the irregular `id`
mapping applies only when the whole identifier is `"id"`), and
`goTitleCase "first name" = "First Name"`. -/
theorem claim_C1 :
    (∀ s : String, s ≠ "id" → goTitleCase s = caseNameSpec s)
    ∧ goTitleCase "id" = "ID"
    ∧ goTitleCase "user_id" = "UserId"
    ∧ goTitleCase "first name" = "First Name" := by
  refine ⟨?_, by decide, by decide, by decide⟩
  intro s hs
  simp only [goTitleCase, caseNameSpec, if_neg hs]
  rw [goTitleCaseLoop_spec]

/-- C1 counterexample: the claim asserts `goTitleCase "user_id" = "UserID"`,
but the code produces `"UserId"` — the `id → ID` special case fires only on
the whole input string "id", not on a trailing `_id` component. -/
theorem claim_C1_counterexample :
    goTitleCase "user_id" = "UserId" ∧ ("UserId" : String) ≠ "UserID" :=
  ⟨by decide, by decide⟩

/-- C1 witness: the amended universal statement at the concrete input
"hello_world id". -/
theorem claim_C1_witness :
    goTitleCase "hello_world id" = caseNameSpec "hello_world id" :=
  claim_C1.1 "hello_world id" (by decide)

/-- C2: over any parsed statement sequence, extraction yields at most as many
`Table` records as there are table-creation statements, exactly that many when
the allowlist is empty, and, for a non-empty allowlist, exactly the tables
whose raw relation name is a member (whole statements discarded on
non-match); allowlist `["users"]` over tables users and posts yields only the
users table. -/
theorem claim_C2 : ∀ (stmts : List Stmt) (allow : List String),
    (extractTables (collectCreateTables stmts).1 allow).length ≤ countCreateStmts stmts
    ∧ (allow = [] →
        (extractTables (collectCreateTables stmts).1 allow).length = countCreateStmts stmts)
    ∧ (allow ≠ [] → extractTables (collectCreateTables stmts).1 allow
        = ((collectCreateTables stmts).1.filter (fun s => allow.contains s.relname)).map buildTable)
    ∧ extractTables [usersStmt, postsStmt] ["users"] = [buildTable usersStmt]
    ∧ (buildTable usersStmt).Name = "users" := by
  intro stmts allow
  have hc : (collectCreateTables stmts).1 = stmts.filterMap createOf := by
    rw [collectCreateTables, collectLoop_eq]
    simp
  have hlen : (collectCreateTables stmts).1.length = countCreateStmts stmts := by
    rw [hc]; rfl
  refine ⟨?_, ?_, fun h => extractTables_of_ne_nil _ allow h, by decide, by decide⟩
  · rw [extractTables_eq, List.length_map, ← hlen]
    exact List.length_filter_le _ _
  · intro h
    subst h
    rw [extractTables_eq, List.length_map, ← hlen]
    have hf : (collectCreateTables stmts).1.filter (keepTable [])
        = (collectCreateTables stmts).1 :=
      List.filter_eq_self.mpr (fun a _ => by simp [keepTable])
    rw [hf]

/-- C2 witness: the empty-allowlist count equality and the non-empty
membership characterization at concrete inputs. -/
theorem claim_C2_witness :
    (extractTables (collectCreateTables [Stmt.createStmt usersStmt]).1 []).length
      = countCreateStmts [Stmt.createStmt usersStmt]
    ∧ extractTables (collectCreateTables [Stmt.createStmt usersStmt]).1 ["users"]
      = ((collectCreateTables [Stmt.createStmt usersStmt]).1.filter
          (fun s => (["users"] : List String).contains s.relname)).map buildTable :=
  ⟨(claim_C2 [Stmt.createStmt usersStmt] []).2.1 rfl,
   (claim_C2 [Stmt.createStmt usersStmt] ["users"]).2.2.1 (by decide)⟩

/-- C3: extraction preserves source order — the emitted tables are the
order-preserving image of the allowlist-filtered statements, within each table
the columns are the source-ordered column definitions with every non-column
element skipped, and two statements sharing a relation name yield two separate
`Table` records in order. -/
theorem claim_C3 : ∀ (cts : List CreateStmt) (allow : List String) (s : CreateStmt),
    extractTables cts allow = (cts.filter (keepTable allow)).map buildTable
    ∧ (buildTable s).Columns = s.tableElts.filterMap columnOfElt
    ∧ extractTables [dupStmtA, dupStmtB] [] = [buildTable dupStmtA, buildTable dupStmtB]
    ∧ (buildTable dupStmtA).Name = (buildTable dupStmtB).Name := by
  intro cts allow s
  refine ⟨extractTables_eq cts allow, ?_, by decide, by decide⟩
  simp only [buildTable]
  rw [buildColumnsLoop_eq]
  simp

/-- C4 (amended): a bare unrecognized statement is skipped with exactly one
logged diagnostic and processing of the remaining statements is unaffected; a
raw-statement wrapper around a non-CREATE-TABLE statement (e.g. an INSERT) is
skipped silently — no diagnostic is logged — and processing likewise
continues; extraction never fails. -/
theorem claim_C4 : ∀ (k : String) (rest : List Stmt),
    collectCreateTables (Stmt.rawStmt (InnerStmt.otherInner k) :: rest)
      = collectCreateTables rest
    ∧ (collectCreateTables (Stmt.otherStmt k :: rest)).1 = (collectCreateTables rest).1
    ∧ (collectCreateTables (Stmt.otherStmt k :: rest)).2
        = ("unexpected statement type " ++ k) :: (collectCreateTables rest).2 := by
  intro k rest
  refine ⟨?_, ?_, ?_⟩ <;>
    simp [collectCreateTables, collectLoop_eq, createOf, stmtDiagOf, List.filterMap_cons]

/-- C4 counterexample: a raw-statement wrapper around an INSERT is skipped,
but the log stays empty — the claimed non-fatal logged diagnostic is never
produced for raw-wrapped non-CREATE statements. -/
theorem claim_C4_counterexample :
    (collectCreateTables [Stmt.rawStmt (InnerStmt.otherInner "InsertStmt")]).1 = []
    ∧ (collectCreateTables [Stmt.rawStmt (InnerStmt.otherInner "InsertStmt")]).2 = [] :=
  ⟨by decide, by decide⟩

/-- C7 (amended): when every plain-string-literal part is non-empty, the
type-name renderer joins exactly the literal parts with a single space between
consecutive parts in encounter order with no leading or trailing space; every
other node kind contributes exactly one logged diagnostic and never aborts the
(total) rendering. -/
theorem claim_C7 : ∀ nod : List Node,
    ((∀ s ∈ literalsOf nod, s ≠ "") → (toString nod).1 = joinSpaceSpec (literalsOf nod))
    ∧ (toString nod).2 = nod.filterMap nodeDiagOf := by
  intro nod
  refine ⟨toString_val_of_nonempty nod, ?_⟩
  rw [toString, toStringLoop_logs]
  simp

/-- C7 counterexample: with an empty literal part the output is not the
single-space join of the parts — `toString` writes a separating space only
when the buffer is already non-empty, so `["", "x"]` renders as `"x"`, not
`" x"`. -/
theorem claim_C7_counterexample :
    (toString [Node.strNode "", Node.strNode "x"]).1 = "x"
    ∧ joinSpaceSpec ["", "x"] = " x"
    ∧ ("x" : String) ≠ " x" :=
  ⟨by decide, by decide, by decide⟩

/-- C7 witness: the amended join statement at the concrete part list
`["pg_catalog", "varchar"]`. -/
theorem claim_C7_witness :
    (toString [Node.strNode "pg_catalog", Node.strNode "varchar"]).1
      = joinSpaceSpec (literalsOf [Node.strNode "pg_catalog", Node.strNode "varchar"]) :=
  (claim_C7 _).1 (by decide)

/-- C8 (amended): `goTitleCase ""` is the empty string; a string of only
underscores yields the empty string; more generally a string of only separator
characters yields the string with its underscores removed — spaces are
preserved, not removed, so a separator-only string containing a space does not
map to the empty string; multi-byte characters are case-folded as whole
characters (`"ñx"` becomes `"Ñx"`). -/
theorem claim_C8 :
    goTitleCase "" = ""
    ∧ (∀ s : String, (∀ c ∈ s.data, c = '_') → goTitleCase s = "")
    ∧ (∀ s : String, (∀ c ∈ s.data, c = ' ' ∨ c = '_') →
        goTitleCase s = ⟨s.data.filter (fun c => c != '_')⟩)
    ∧ goTitleCase "ñx" = "Ñx" := by
  have hsep : ∀ s : String, (∀ c ∈ s.data, c = ' ' ∨ c = '_') →
      goTitleCase s = ⟨s.data.filter (fun c => c != '_')⟩ := by
    intro s h
    have hid : s ≠ "id" := by
      intro he
      subst he
      rcases h 'i' (by decide) with hc | hc <;> exact absurd hc (by decide)
    simp only [goTitleCase, if_neg hid]
    exact congrArg String.mk (goTitleCaseLoop_sep s.data h true false)
  refine ⟨by decide, ?_, hsep, by decide⟩
  intro s h
  rw [hsep s (fun c hc => Or.inr (h c hc))]
  have hnil : s.data.filter (fun c => c != '_') = [] := by
    apply List.filter_eq_nil_iff.mpr
    intro a ha
    simp [h a ha]
  rw [hnil]

/-- C8 counterexample: the claim asserts that every separator-only string maps
to the empty string, but a single space maps to a single space — spaces are
preserved by the caser. -/
theorem claim_C8_counterexample :
    goTitleCase " " = " " ∧ (" " : String) ≠ "" :=
  ⟨by decide, by decide⟩

/-- C8 witness: the amended separator-only statement at the concrete input
"_ _". -/
theorem claim_C8_witness :
    goTitleCase "_ _" = String.mk ("_ _".data.filter (fun c => c != '_')) :=
  claim_C8.2.2.1 "_ _" (by decide)

/-- C5: rendering the built-in default template over
`Data{Package: "models", Tables: [users(id int4, email text)]}` produces
source text (given exactly) containing a grouping named `Users` directly
preceded by a comment naming the source table, with a `TableName` field and
per-column fields `ID`/`Email` carrying trailing comments stating the SQL
types, and with the field values `"users"`, `"id"`, `"email"` in the struct
literal; the output formatter accepts that text, and verifying
already-canonical text returns it unchanged. -/
theorem claim_C5 :
    renderGencodeTmpl ⟨"models", [usersTable]⟩
      = "// Code generated by pgsqlconsts; DO NOT EDIT.\npackage models\n\n\n// Users contains constants for the users table\nvar Users = struct\x7b\n\tTableName string\n\tID string // int4\n\tEmail string // text\n\x7d\x7b\"users\",\"id\",\"email\", \x7d\n\n"
    ∧ hasSubstring ("// Users contains constants for the users table\nvar Users = struct".data)
        (renderGencodeTmpl ⟨"models", [usersTable]⟩).data = true
    ∧ hasSubstring ("TableName string".data)
        (renderGencodeTmpl ⟨"models", [usersTable]⟩).data = true
    ∧ hasSubstring ("\n\tID string // int4".data)
        (renderGencodeTmpl ⟨"models", [usersTable]⟩).data = true
    ∧ hasSubstring ("\n\tEmail string // text".data)
        (renderGencodeTmpl ⟨"models", [usersTable]⟩).data = true
    ∧ hasSubstring ("\x7b\"users\",\"id\",\"email\", \x7d".data)
        (renderGencodeTmpl ⟨"models", [usersTable]⟩).data = true
    ∧ formatSource (renderGencodeTmpl ⟨"models", [usersTable]⟩)
        = .ok (fmtNorm (renderGencodeTmpl ⟨"models", [usersTable]⟩))
    ∧ (∀ t u : String, formatSource t = .ok u → formatSource u = .ok u) := by
  refine ⟨by decide, by decide, by decide, by decide, by decide, by decide, by rfl,
    formatSource_idem⟩

/-- C5 witness: idempotence of the verifier at the concrete already-canonical
text `"p\n"`. -/
theorem claim_C5_witness : formatSource "p\n" = Except.ok "p\n" :=
  claim_C5.2.2.2.2.2.2.2 "p\n" "p\n" (by rfl)

/-- C6: in the driver tail, a template parse failure is fatal before any
output is produced; a formatter failure is fatal with the raw rendered text
dumped to stderr and nothing written; every fatal outcome leaves both the
output file and stdout unwritten; and a file is written only with contents
that were fully rendered and then verified by the formatter — for any
behaviour of the external template engine, formatter, and file system. -/
theorem claim_C6 :
    ∀ (parseTmpl : String → Except String (Data → Except String String))
      (fmtSrc : String → Except String String) (createOk : String → Bool)
      (tt outf : String) (d : Data),
    (∀ e, parseTmpl tt = .error e →
      renderAndWrite parseTmpl fmtSrc createOk tt outf d
        = ⟨none, none, none, some (.templateParse e)⟩)
    ∧ (∀ ex r e, parseTmpl tt = .ok ex → ex d = .ok r → fmtSrc r = .error e →
      renderAndWrite parseTmpl fmtSrc createOk tt outf d
        = ⟨some r, none, none, some (.badCode e)⟩)
    ∧ ((renderAndWrite parseTmpl fmtSrc createOk tt outf d).fatalErr.isSome →
      (renderAndWrite parseTmpl fmtSrc createOk tt outf d).fileOut = none
      ∧ (renderAndWrite parseTmpl fmtSrc createOk tt outf d).stdoutOut = none)
    ∧ (∀ p c, (renderAndWrite parseTmpl fmtSrc createOk tt outf d).fileOut = some (p, c) →
      p = outf ∧ ∃ ex r, parseTmpl tt = .ok ex ∧ ex d = .ok r ∧ fmtSrc r = .ok c) := by
  intro parseTmpl fmtSrc createOk tt outf d
  refine ⟨?_, ?_, ?_, ?_⟩
  · intro e h
    simp [renderAndWrite, h]
  · intro ex r e h1 h2 h3
    simp [renderAndWrite, h1, h2, h3]
  · rcases hp : parseTmpl tt with e | ex
    · simp [renderAndWrite, hp]
    · rcases he : ex d with e | r
      · simp [renderAndWrite, hp, he]
      · rcases hf : fmtSrc r with e | f
        · simp [renderAndWrite, hp, he, hf]
        · by_cases ho : outf ≠ ""
          · by_cases hc : createOk outf = true
            · simp [renderAndWrite, hp, he, hf, ho, hc]
            · simp [renderAndWrite, hp, he, hf, ho, hc]
          · simp [renderAndWrite, hp, he, hf, ho]
  · rcases hp : parseTmpl tt with e | ex
    · simp [renderAndWrite, hp]
    · rcases he : ex d with e | r
      · simp [renderAndWrite, hp, he]
      · rcases hf : fmtSrc r with e | f
        · simp [renderAndWrite, hp, he, hf]
        · by_cases ho : outf ≠ ""
          · by_cases hc : createOk outf = true
            · intro p c h
              simp [renderAndWrite, hp, he, hf, ho, hc] at h
              exact ⟨h.1.symm, ex, r, rfl, he, by rw [hf]; exact congrArg _ h.2⟩
            · intro p c h
              simp [renderAndWrite, hp, he, hf, ho, hc] at h
          · intro p c h
            simp [renderAndWrite, hp, he, hf, ho] at h

/-- C6 witness: the parse-failure and format-failure outcomes at concrete
collaborators and inputs. -/
theorem claim_C6_witness :
    renderAndWrite (fun _ => .error "bad template") (fun s => .ok s) (fun _ => true)
        "tt" "out.go" ⟨"models", []⟩
      = ⟨none, none, none, some (.templateParse "bad template")⟩
    ∧ renderAndWrite (fun _ => .ok (fun _ => .ok "x")) (fun _ => .error "boom")
        (fun _ => true) "tt" "out.go" ⟨"models", []⟩
      = ⟨some "x", none, none, some (.badCode "boom")⟩ :=
  ⟨(claim_C6 (fun _ => .error "bad template") (fun s => .ok s) (fun _ => true)
      "tt" "out.go" ⟨"models", []⟩).1 "bad template" rfl,
   (claim_C6 (fun _ => .ok (fun _ => .ok "x")) (fun _ => .error "boom") (fun _ => true)
      "tt" "out.go" ⟨"models", []⟩).2.1 (fun _ => .ok "x") "x" "boom" rfl rfl rfl⟩

/-- C9: for a non-empty `-tables` flag value the allowlist is exactly the
untrimmed comma-separated segments and membership is exact case-sensitive
string equality; the value "," yields the non-empty allowlist `["", ""]`,
which filters out every table with a non-empty name; an entry with
surrounding spaces (or different case) never matches the bare table name. -/
theorem claim_C9 : ∀ (v : String) (cts : List CreateStmt),
    (v ≠ "" → extractTables cts (parseAllowlist v)
        = (cts.filter (fun s => (parseAllowlist v).contains s.relname)).map buildTable)
    ∧ parseAllowlist "," = ["", ""]
    ∧ ((∀ s ∈ cts, s.relname ≠ "") → extractTables cts (parseAllowlist ",") = [])
    ∧ parseAllowlist " users ,posts" = [" users ", "posts"]
    ∧ extractTables [usersStmt] (parseAllowlist " users ,posts") = []
    ∧ extractTables [usersStmt] (parseAllowlist "Users") = [] := by
  intro v cts
  refine ⟨?_, by decide, ?_, by decide, by decide, by decide⟩
  · intro hv
    exact extractTables_of_ne_nil cts _ (parseAllowlist_ne_nil v hv)
  · intro h
    rw [extractTables_of_ne_nil cts _ (by decide : parseAllowlist "," ≠ [])]
    have hnil : cts.filter (fun s => (parseAllowlist ",").contains s.relname) = [] := by
      apply List.filter_eq_nil_iff.mpr
      intro s hs
      have hrel := h s hs
      rw [show parseAllowlist "," = ["", ""] from by decide]
      simp [hrel]
    rw [hnil]
    rfl

/-- C9 witness: the untrimmed exact-membership characterization for the flag
value "users" and the everything-filtered outcome of the flag value ",". -/
theorem claim_C9_witness :
    extractTables [usersStmt, postsStmt] (parseAllowlist "users")
      = (([usersStmt, postsStmt]).filter
          (fun s => (parseAllowlist "users").contains s.relname)).map buildTable
    ∧ extractTables [usersStmt, postsStmt] (parseAllowlist ",") = [] :=
  ⟨(claim_C9 "users" [usersStmt, postsStmt]).1 (by decide),
   (claim_C9 "x" [usersStmt, postsStmt]).2.2.1 (by decide)⟩

/-- C10: when extraction yields no tables, the pipeline still succeeds — the
default template renders only the generated-code header comment and the
package clause (plus blank lines), the formatter accepts that text, and the
formatted text is written to the configured output destination. -/
theorem claim_C10 : ∀ (cts : List CreateStmt) (allow : List String) (tt : String),
    extractTables cts allow = [] →
    renderGencodeTmpl ⟨"models", extractTables cts allow⟩
        = "// Code generated by pgsqlconsts; DO NOT EDIT.\npackage models\n\n\n"
    ∧ formatSource (renderGencodeTmpl ⟨"models", extractTables cts allow⟩)
        = .ok "// Code generated by pgsqlconsts; DO NOT EDIT.\npackage models\n"
    ∧ renderAndWrite (fun _ => .ok (fun d => .ok (renderGencodeTmpl d))) formatSource
          (fun _ => true) tt "out.go" ⟨"models", extractTables cts allow⟩
        = ⟨none, none,
            some ("out.go", "// Code generated by pgsqlconsts; DO NOT EDIT.\npackage models\n"),
            none⟩ := by
  intro cts allow tt h
  rw [h]
  exact ⟨by decide, by rfl, by rfl⟩

/-- C10 witness: the empty-output pipeline at a concrete schema whose only
table is filtered out by the allowlist. -/
theorem claim_C10_witness :
    renderGencodeTmpl ⟨"models", extractTables [usersStmt] ["nope"]⟩
      = "// Code generated by pgsqlconsts; DO NOT EDIT.\npackage models\n\n\n" :=
  (claim_C10 [usersStmt] ["nope"] "x" (by decide)).1

end pgsqlconsts
